import Mathlib

/-!
Shallow embedding of `src/var_cleaner.py`.

A directory is modelled as a list of entries in listing order; each entry
carries its filename and its size, where `none` models a size whose read
raises `OSError`.  The regular expression
`^(?P<base>.+?)\.(?P<version>\d+)\.var$` (compiled with `re.IGNORECASE`)
is modelled directly on the character list of the name: the non-greedy
base grows from the left one character at a time (never across a newline,
which `.` does not match), and at each split the anchored remainder must
be a literal dot, a non-empty digit run, and a case-insensitive `.var`
ending the string.  `scan_directory`, `format_size` and the interactive
`main` flow are translated statement by statement; floats in
`format_size` are modelled by exact rationals (all divisions there are by
the power of two 1024, which is exact in binary floating point), and the
two-decimal rendering of `f-string :.2f` rounds half to even as IEEE
formatting does.  `main`'s filesystem effects take the directory
contents, the mode string, the confirmation response and a deletion
oracle (`delFail path = some err` models `os.remove` raising
`OSError(err)`) and return the final directory contents together with
the deleted paths and the printed lines.
-/

/-- A directory entry: filename and best-effort size
(`none` models `os.path.getsize` raising `OSError`). -/
structure Entry where
  name : String
  size : Option Nat
deriving DecidableEq

/-- Directory contents in listing order. -/
abbrev FS := List Entry

/-- Numeric value of a digit run, as `int(...)` reads it (leading zeros allowed). -/
def digitsToNat (ds : List Char) : Nat :=
  ds.foldl (fun n c => 10 * n + (c.toNat - 48)) 0

/-- The anchored remainder after the base: a literal `.`, a non-empty digit
run, then a case-insensitive `.var` ending the name (the greedy `\d+`
cannot stop early, since the following literal `.` never matches a digit). -/
def matchTail : List Char → Option Nat
  | '.' :: rest =>
    let ds := rest.takeWhile Char.isDigit
    let rest2 := rest.dropWhile Char.isDigit
    if ds ≠ [] ∧ rest2.map Char.toLower = ['.', 'v', 'a', 'r'] then
      some (digitsToNat ds)
    else
      none
  | _ => none

/-- Non-greedy search for the base: try the shortest non-empty prefix first,
growing one character at a time; `.` does not match a newline, so a newline
in the base position aborts the whole match. -/
def matchBase (acc : List Char) : List Char → Option (List Char × Nat)
  | [] => none
  | c :: rest =>
    if c = '\n' then none
    else
      match matchTail rest with
      | some v => some (acc ++ [c], v)
      | none => matchBase (acc ++ [c]) rest

/-- `VERSION_RE.match(name)`: base and version of a `<base>.<version>.var`
name, or `none` when the name does not match. -/
def matchVar (name : String) : Option (String × Nat) :=
  match matchBase [] name.data with
  | some (cs, v) => some (String.mk cs, v)
  | none => none

/-- The pre-filter `name.lower().endswith(".var")`. -/
def lowerEndsVar (name : String) : Bool :=
  decide ((name.data.map Char.toLower).reverse.take 4 = ['r', 'a', 'v', '.'])

/-- The combined per-name check of both scan passes: skip names failing the
`.var` pre-filter, then apply the version regular expression. -/
def entryParse (name : String) : Option (String × Nat) :=
  if lowerEndsVar name then matchVar name else none

/-- `latest.get(base, -1)` seen as an integer. -/
def intGetD : Option Nat → Int
  | some w => (w : Int)
  | none => -1

/-- One step of the first scan pass: record the version when it exceeds the
maximum recorded so far for its base (default `-1`). -/
def step1 (latest : String → Option Nat) (e : Entry) : String → Option Nat :=
  match entryParse e.name with
  | some (b, v) =>
    if (v : Int) > intGetD (latest b) then Function.update latest b (some v) else latest
  | none => latest

/-- First scan pass: maximum version per base (`none` for an absent base). -/
def pass1 (fs : FS) : String → Option Nat :=
  fs.foldl step1 (fun _ => none)

/-- `os.path.join(dirpath, name)` on a POSIX path without trailing separator. -/
def osJoin (d n : String) : String := d ++ "/" ++ n

/-- One step of the second scan pass: a file is appended to the outdated
list when its version is below `latest.get(base, ver)`, and its size is
added to the running total (an unreadable size contributes nothing). -/
def step2 (dirpath : String) (latest : String → Option Nat)
    (acc : List String × Nat) (e : Entry) : List String × Nat :=
  match entryParse e.name with
  | some (b, v) =>
    if v < (latest b).getD v then
      (acc.1 ++ [osJoin dirpath e.name], acc.2 + e.size.getD 0)
    else acc
  | none => acc

/-- `scan_directory`: the outdated paths in listing order and the total size. -/
def scan_directory (dirpath : String) (fs : FS) : List String × Nat :=
  fs.foldl (step2 dirpath (pass1 fs)) ([], 0)

/-- Whether one name is classified outdated by the second pass under a given
first-pass result; it depends only on the name. -/
def isOut (latest : String → Option Nat) (name : String) : Bool :=
  match entryParse name with
  | some (b, v) => decide (v < (latest b).getD v)
  | none => false

/-- The version contributed by an entry to a given base, if any. -/
def vKey (b : String) (e : Entry) : Option Nat :=
  match entryParse e.name with
  | some p => if p.1 = b then some p.2 else none
  | none => none

/-- All versions present for a base, in listing order. -/
def versionsOf (fs : FS) (b : String) : List Nat :=
  fs.filterMap (vKey b)

/-- The maximum version observed for a base (0 when the base is absent). -/
def maxVersion (fs : FS) (b : String) : Nat :=
  (versionsOf fs b).foldl max 0

/-- Round half to even, as IEEE-correct float formatting does on the exact
value (the values reaching it here have power-of-two denominators). -/
def rhe (q : ℚ) : ℤ :=
  if q - ⌊q⌋ = 1 / 2 then (if ⌊q⌋ % 2 = 0 then ⌊q⌋ else ⌊q⌋ + 1)
  else ⌊q + 1 / 2⌋

/-- Decimal digit character. -/
def digitChar (n : Nat) : Char := Char.ofNat (48 + n)

/-- Decimal digits of a natural number (with explicit fuel). -/
def natDigits : Nat → Nat → List Char
  | 0, _ => []
  | fuel + 1, n => if n < 10 then [digitChar n] else natDigits fuel (n / 10) ++ [digitChar (n % 10)]

/-- Decimal rendering of a natural number, as `str` renders it. -/
def natRepr (n : Nat) : String := String.mk (natDigits (n + 1) n)

/-- The `:.2f` rendering of a nonnegative value: integer part, dot, and a
two-digit fractional part. -/
def format2 (q : ℚ) : String :=
  natRepr (rhe (q * 100) / 100).toNat ++ "." ++
    (if rhe (q * 100) % 100 < 10 then "0" else "") ++ natRepr (rhe (q * 100) % 100).toNat

/-- The unit loop of `format_size`: print at the first unit where the value
is below 1024, dividing by 1024 at each step, and fall through to `PB`. -/
def format_size_go : ℚ → List String → String
  | num, [] => format2 num ++ " PB"
  | num, u :: rest => if num < 1024 then format2 num ++ " " ++ u else format_size_go (num / 1024) rest

/-- `format_size`: human-readable size string. -/
def format_size (num : ℚ) : String :=
  format_size_go num ["bytes", "KB", "MB", "GB", "TB"]

/-- Python `str.strip` character class (ASCII whitespace). -/
def isSpaceChar (c : Char) : Bool :=
  c == ' ' || c == '\t' || c == '\n' || c == '\r' || c == Char.ofNat 11 || c == Char.ofNat 12

/-- Python `str.strip()`. -/
def pyStrip (s : String) : String :=
  String.mk (((s.data.dropWhile isSpaceChar).reverse.dropWhile isSpaceChar).reverse)

/-- Python `str.lower()` on ASCII. -/
def pyLower (s : String) : String := String.mk (s.data.map Char.toLower)

/-- `resp.startswith("y")`. -/
def startsWithY (s : String) : Bool :=
  match s.data with
  | [] => false
  | c :: _ => c == 'y'

/-- Whether a raw string begins with the character `y` or `Y`. -/
def beginsWithYorY (s : String) : Bool :=
  match s.data with
  | [] => false
  | c :: _ => c == 'y' || c == 'Y'

/-- The per-file deletion failure message. -/
def failMsg (p err : String) : String := "Failed to delete " ++ p ++ ": " ++ err

/-- The deletion loop: attempt `os.remove` on every outdated path in order;
a success removes the entry from the directory and is recorded, a failure
leaves the directory untouched and prints its message; either way the loop
continues with the remaining paths.  Returns the directory contents, the
successfully deleted paths and the failure messages. -/
def runDelete (dirpath : String) (delFail : String → Option String) :
    FS → List String → FS × List String × List String
  | fs, [] => (fs, [], [])
  | fs, p :: rest =>
    match delFail p with
    | none =>
      let r := runDelete dirpath delFail (fs.filter fun e => decide (osJoin dirpath e.name ≠ p)) rest
      (r.1, p :: r.2.1, r.2.2)
    | some err =>
      let r := runDelete dirpath delFail fs rest
      (r.1, r.2.1, failMsg p err :: r.2.2)

/-- Outcome of one run of `main` after the directory has been chosen. -/
structure MainResult where
  fs : FS
  scanned : Bool
  deleted : List String
  output : List String
deriving DecidableEq

/-- The `main` flow after directory choice: mode check, scan and report, and
the optional confirmed deletion.  `delFail` is the `os.remove` oracle. -/
def runMain (fs : FS) (dirpath mode resp : String) (delFail : String → Option String) :
    MainResult :=
  let m := pyLower (pyStrip mode)
  if m = "view" ∨ m = "update" then
    let scanned := scan_directory dirpath fs
    let report := ["Outdated files: " ++ natRepr scanned.1.length,
                   "Disk space used: " ++ format_size (scanned.2 : ℚ)]
    if m = "update" ∧ 0 < scanned.1.length then
      if startsWithY (pyLower (pyStrip resp)) then
        let r := runDelete dirpath delFail fs scanned.1
        { fs := r.1, scanned := true, deleted := r.2.1,
          output := report ++ r.2.2 ++ ["Deleted " ++ natRepr scanned.1.length ++ " files."] }
      else
        { fs := fs, scanned := true, deleted := [], output := report ++ ["Deletion cancelled."] }
    else
      { fs := fs, scanned := true, deleted := [], output := report }
  else
    { fs := fs, scanned := false, deleted := [], output := ["Invalid mode. Exiting."] }

/-- One dictionary update of the first pass, seen per base: absent bases
take the incoming version, present ones the maximum with it. -/
def vfold (o : Option Nat) (v : Nat) : Option Nat :=
  some (o.elim v (fun w => max w v))

/-- Unit selection spelled out: the value is printed at the first unit
where dividing by 1024 has brought it below 1024, with two decimals. -/
def specFormat (n : Nat) : String :=
  if n < 1024 then format2 (n : ℚ) ++ " bytes"
  else if n < 1024 ^ 2 then format2 ((n : ℚ) / 1024) ++ " KB"
  else if n < 1024 ^ 3 then format2 ((n : ℚ) / 1024 ^ 2) ++ " MB"
  else if n < 1024 ^ 4 then format2 ((n : ℚ) / 1024 ^ 3) ++ " GB"
  else if n < 1024 ^ 5 then format2 ((n : ℚ) / 1024 ^ 4) ++ " TB"
  else format2 ((n : ℚ) / 1024 ^ 5) ++ " PB"

/-- Sample directory: two versions of one base. -/
def fsA : FS := [⟨"a.1.var", some 10⟩, ⟨"a.2.var", some 20⟩]

/-- Sample directory whose outdated file has an unreadable size. -/
def fsB : FS := [⟨"a.1.var", none⟩, ⟨"a.2.var", some 5⟩]

/-- Sample directory with two bases, each having an outdated version. -/
def fsC : FS :=
  [⟨"a.1.var", some 10⟩, ⟨"b.1.var", some 5⟩, ⟨"a.2.var", some 20⟩, ⟨"b.3.var", some 7⟩]

/-- Sample directory for the confirmation-response scenarios. -/
def fs7 : FS := [⟨"a.1.var", some 3⟩, ⟨"a.2.var", some 4⟩]

/-- Deletion oracle that fails exactly on `d/a.1.var`. -/
def delFailA : String → Option String :=
  fun p => if p = "d/a.1.var" then some "Permission denied" else none

theorem step2_eq (d : String) (latest : String → Option Nat) (acc : List String × Nat)
    (e : Entry) :
    step2 d latest acc e =
      if isOut latest e.name then (acc.1 ++ [osJoin d e.name], acc.2 + e.size.getD 0)
      else acc := by
  unfold step2 isOut
  cases h : entryParse e.name with
  | none => simp
  | some p =>
    obtain ⟨b, v⟩ := p
    by_cases hv : v < (latest b).getD v
    · simp [hv]
    · simp [hv]

theorem foldl_step2 (d : String) (latest : String → Option Nat) (fs : FS) :
    ∀ acc : List String × Nat,
      fs.foldl (step2 d latest) acc =
        (acc.1 ++ (fs.filter fun e => isOut latest e.name).map (fun e => osJoin d e.name),
          acc.2 + ((fs.filter fun e => isOut latest e.name).map (fun e => e.size.getD 0)).sum) := by
  induction fs with
  | nil => intro acc; simp
  | cons e fs ih =>
    intro acc
    rw [List.foldl_cons, ih, step2_eq]
    by_cases h : isOut latest e.name
    · rw [if_pos h]
      simp [List.filter_cons, h, List.append_assoc, Nat.add_assoc]
    · rw [if_neg h]
      simp [List.filter_cons, h]

theorem scan_fst (d : String) (fs : FS) :
    (scan_directory d fs).1 =
      (fs.filter fun e => isOut (pass1 fs) e.name).map (fun e => osJoin d e.name) := by
  unfold scan_directory
  rw [foldl_step2]
  simp

theorem scan_snd (d : String) (fs : FS) :
    (scan_directory d fs).2 =
      ((fs.filter fun e => isOut (pass1 fs) e.name).map (fun e => e.size.getD 0)).sum := by
  unfold scan_directory
  rw [foldl_step2]
  simp

theorem step1_apply (latest : String → Option Nat) (e : Entry) (b : String) :
    step1 latest e b =
      match vKey b e with
      | some v => vfold (latest b) v
      | none => latest b := by
  unfold step1 vKey
  cases h : entryParse e.name with
  | none => simp
  | some p =>
    obtain ⟨b', v⟩ := p
    simp only
    by_cases hb : b' = b
    · subst hb
      cases hl : latest b' with
      | none =>
        rw [if_pos (show (v : Int) > intGetD none from by
          show (-1 : Int) < (v : Int)
          exact lt_of_lt_of_le (by norm_num) (Int.natCast_nonneg v))]
        simp [vfold, Function.update_same]
      | some w =>
        by_cases hw : w < v
        · rw [if_pos (show (v : Int) > intGetD (some w) from by
            show (w : Int) < (v : Int)
            exact_mod_cast hw)]
          simp [vfold, Function.update_same, Nat.max_eq_right (le_of_lt hw)]
        · rw [if_neg (show ¬ (v : Int) > intGetD (some w) from by
            show ¬ (w : Int) < (v : Int)
            exact_mod_cast hw)]
          simp [vfold, hl, Nat.max_eq_left (Nat.le_of_not_lt hw)]
    · have hne : b ≠ b' := fun h => hb h.symm
      split
      · simp [Function.update_noteq hne, if_neg hb]
      · simp [if_neg hb]

theorem foldl_step1 (fs : FS) :
    ∀ (acc : String → Option Nat) (b : String),
      fs.foldl step1 acc b = (versionsOf fs b).foldl vfold (acc b) := by
  induction fs with
  | nil => intro acc b; simp [versionsOf]
  | cons e fs ih =>
    intro acc b
    rw [List.foldl_cons, ih]
    unfold versionsOf
    rw [List.filterMap_cons]
    have ha := step1_apply acc e b
    cases h : vKey b e with
    | none =>
      rw [h] at ha
      rw [ha]
    | some v =>
      rw [h] at ha
      rw [ha, List.foldl_cons]

theorem pass1_eq (fs : FS) (b : String) :
    pass1 fs b = (versionsOf fs b).foldl vfold none := by
  unfold pass1
  rw [foldl_step1]

theorem foldl_vfold_some (l : List Nat) :
    ∀ a : Nat, l.foldl vfold (some a) = some (l.foldl max a) := by
  induction l with
  | nil => intro a; rfl
  | cons v l ih =>
    intro a
    rw [List.foldl_cons, List.foldl_cons]
    exact ih (max a v)

theorem pass1_of_ne_nil (fs : FS) (b : String) (h : versionsOf fs b ≠ []) :
    pass1 fs b = some (maxVersion fs b) := by
  rw [pass1_eq]
  obtain ⟨v, t, ht⟩ : ∃ v t, versionsOf fs b = v :: t := by
    cases hv : versionsOf fs b with
    | nil => exact absurd hv h
    | cons v t => exact ⟨v, t, rfl⟩
  unfold maxVersion
  rw [ht, List.foldl_cons, List.foldl_cons]
  have hv : vfold none v = some v := rfl
  rw [hv, foldl_vfold_some, Nat.zero_max]

theorem le_foldl_max (l : List Nat) : ∀ a : Nat, a ≤ l.foldl max a := by
  induction l with
  | nil => intro a; exact le_refl a
  | cons v l ih =>
    intro a
    rw [List.foldl_cons]
    exact le_trans (Nat.le_max_left a v) (ih (max a v))

theorem mem_le_foldl_max (l : List Nat) : ∀ (a v : Nat), v ∈ l → v ≤ l.foldl max a := by
  induction l with
  | nil => intro a v h; cases h
  | cons x l ih =>
    intro a v h
    rw [List.foldl_cons]
    rcases List.mem_cons.mp h with h | h
    · subst h
      exact le_trans (Nat.le_max_right a v) (le_foldl_max l (max a v))
    · exact ih (max a x) v h

theorem foldl_max_mem (l : List Nat) : ∀ a : Nat, l.foldl max a = a ∨ l.foldl max a ∈ l := by
  induction l with
  | nil => intro a; exact Or.inl rfl
  | cons x l ih =>
    intro a
    rw [List.foldl_cons]
    rcases ih (max a x) with h | h
    · rw [h]
      rcases max_choice a x with h' | h'
      · exact Or.inl h'
      · right
        rw [h']
        exact List.mem_cons_self x l
    · exact Or.inr (List.mem_cons_of_mem x h)

theorem maxVersion_le (fs : FS) (b : String) (v : Nat) (h : v ∈ versionsOf fs b) :
    v ≤ maxVersion fs b :=
  mem_le_foldl_max _ 0 v h

theorem maxVersion_mem (fs : FS) (b : String) (h : versionsOf fs b ≠ []) :
    maxVersion fs b ∈ versionsOf fs b := by
  unfold maxVersion
  rcases foldl_max_mem (versionsOf fs b) 0 with h0 | h0
  · obtain ⟨v, t, ht⟩ : ∃ v t, versionsOf fs b = v :: t := by
      cases hv : versionsOf fs b with
      | nil => exact absurd hv h
      | cons v t => exact ⟨v, t, rfl⟩
    have hv : v ∈ versionsOf fs b := ht ▸ List.mem_cons_self v t
    have hle : v ≤ (versionsOf fs b).foldl max 0 := mem_le_foldl_max _ 0 v hv
    rw [h0] at hle
    have : v = 0 := Nat.le_zero.mp hle
    rw [h0, ← this]
    exact hv
  · exact h0

theorem mem_versionsOf (fs : FS) (e : Entry) (b : String) (v : Nat) (he : e ∈ fs)
    (hp : entryParse e.name = some (b, v)) : v ∈ versionsOf fs b := by
  unfold versionsOf
  refine List.mem_filterMap.mpr ⟨e, he, ?_⟩
  unfold vKey
  rw [hp]
  simp

theorem versionsOf_exists (fs : FS) (b : String) (v : Nat) (h : v ∈ versionsOf fs b) :
    ∃ e ∈ fs, entryParse e.name = some (b, v) := by
  obtain ⟨e, he, hv⟩ := List.mem_filterMap.mp h
  refine ⟨e, he, ?_⟩
  unfold vKey at hv
  cases hp : entryParse e.name with
  | none =>
    rw [hp] at hv
    exact Option.noConfusion hv
  | some p =>
    rw [hp] at hv
    obtain ⟨b', v'⟩ := p
    change (if b' = b then some v' else none) = some v at hv
    by_cases hb : b' = b
    · rw [if_pos hb] at hv
      obtain rfl : v' = v := Option.some.inj hv
      rw [hb]
    · rw [if_neg hb] at hv
      exact Option.noConfusion hv

theorem osJoin_cancel (d n₁ n₂ : String) (h : osJoin d n₁ = osJoin d n₂) : n₁ = n₂ := by
  unfold osJoin at h
  have h2 : (d ++ "/" ++ n₁).data = (d ++ "/" ++ n₂).data := by rw [h]
  rw [String.data_append, String.data_append] at h2
  exact String.ext (List.append_cancel_left h2)

theorem mem_scan_iff (d : String) (fs : FS) (e : Entry) (he : e ∈ fs) :
    osJoin d e.name ∈ (scan_directory d fs).1 ↔ isOut (pass1 fs) e.name = true := by
  rw [scan_fst]
  constructor
  · intro h
    obtain ⟨e', he', hj⟩ := List.mem_map.mp h
    obtain ⟨he'fs, ho⟩ := List.mem_filter.mp he'
    have hn : e'.name = e.name := osJoin_cancel d _ _ hj
    rw [← hn]
    exact ho
  · intro h
    exact List.mem_map.mpr ⟨e, List.mem_filter.mpr ⟨he, h⟩, rfl⟩

theorem isOut_eq (fs : FS) (e : Entry) (b : String) (v : Nat) (he : e ∈ fs)
    (hp : entryParse e.name = some (b, v)) :
    isOut (pass1 fs) e.name = true ↔ v < maxVersion fs b := by
  have hv : v ∈ versionsOf fs b := mem_versionsOf fs e b v he hp
  have hne : versionsOf fs b ≠ [] := List.ne_nil_of_mem hv
  unfold isOut
  rw [hp]
  change decide (v < (pass1 fs b).getD v) = true ↔ _
  rw [pass1_of_ne_nil fs b hne]
  simp

theorem scan_mem_iff_lt (d : String) (fs : FS) (e : Entry) (b : String) (v : Nat)
    (he : e ∈ fs) (hp : entryParse e.name = some (b, v)) :
    osJoin d e.name ∈ (scan_directory d fs).1 ↔ v < maxVersion fs b :=
  (mem_scan_iff d fs e he).trans (isOut_eq fs e b v he hp)

theorem filter_mem_eq (d : String) (fs : FS) :
    (fs.filter fun e => decide (osJoin d e.name ∈ (scan_directory d fs).1)) =
      fs.filter fun e => isOut (pass1 fs) e.name := by
  apply List.filter_congr
  intro e he
  have h := mem_scan_iff d fs e he
  by_cases hm : osJoin d e.name ∈ (scan_directory d fs).1
  · simp [hm, h.mp hm]
  · have hno : ¬ isOut (pass1 fs) e.name = true := fun hh => hm (h.mpr hh)
    simp [hm, hno]

theorem versionsOf_filter (fs : FS) (b : String) :
    versionsOf (fs.filter fun e => (entryParse e.name).isSome) b = versionsOf fs b := by
  induction fs with
  | nil => rfl
  | cons e fs ih =>
    unfold versionsOf at ih ⊢
    rw [List.filter_cons]
    cases hp : entryParse e.name with
    | none =>
      rw [List.filterMap_cons]
      have hk : vKey b e = none := by unfold vKey; rw [hp]
      rw [hk]
      simpa [hp] using ih
    | some p =>
      simp only [Option.isSome_some, if_true]
      rw [List.filterMap_cons, List.filterMap_cons]
      cases hk : vKey b e with
      | none => exact ih
      | some v => rw [ih]

theorem pass1_filter (fs : FS) :
    pass1 (fs.filter fun e => (entryParse e.name).isSome) = pass1 fs := by
  funext b
  rw [pass1_eq, pass1_eq, versionsOf_filter]

theorem scan_filter (d : String) (fs : FS) :
    scan_directory d (fs.filter fun e => (entryParse e.name).isSome) = scan_directory d fs := by
  have hfil :
      (fs.filter fun e => (entryParse e.name).isSome).filter
          (fun e => isOut (pass1 fs) e.name) =
        fs.filter fun e => isOut (pass1 fs) e.name := by
    rw [List.filter_filter]
    apply List.filter_congr
    intro e he
    cases hp : entryParse e.name with
    | none =>
      have : isOut (pass1 fs) e.name = false := by unfold isOut; rw [hp]
      simp [this]
    | some p => simp [hp]
  apply Prod.ext
  · rw [scan_fst, scan_fst, pass1_filter, hfil]
  · rw [scan_snd, scan_snd, pass1_filter, hfil]

theorem runDelete_preserve (d : String) (delFail : String → Option String) :
    ∀ (out : List String) (fs : FS) (e : Entry), e ∈ fs →
      (∀ p ∈ out, osJoin d e.name ≠ p) → e ∈ (runDelete d delFail fs out).1 := by
  intro out
  induction out with
  | nil => intro fs e he _; exact he
  | cons p rest ih =>
    intro fs e he hout
    unfold runDelete
    cases delFail p with
    | none =>
      apply ih
      · exact List.mem_filter.mpr ⟨he, by
          exact decide_eq_true (hout p (List.mem_cons_self p rest))⟩
      · intro q hq
        exact hout q (List.mem_cons_of_mem p hq)
    | some err =>
      exact ih fs e he (fun q hq => hout q (List.mem_cons_of_mem p hq))

theorem runDelete_mem (d : String) (delFail : String → Option String) :
    ∀ (out : List String) (fs : FS) (p : String), p ∈ out →
      (delFail p = none → p ∈ (runDelete d delFail fs out).2.1) ∧
        (∀ err, delFail p = some err → failMsg p err ∈ (runDelete d delFail fs out).2.2) := by
  intro out
  induction out with
  | nil => intro fs p hp; cases hp
  | cons q rest ih =>
    intro fs p hp
    unfold runDelete
    rcases List.mem_cons.mp hp with rfl | hp'
    · constructor
      · intro hnone
        rw [hnone]
        exact List.mem_cons_self p _
      · intro err herr
        rw [herr]
        exact List.mem_cons_self _ _
    · constructor
      · intro hnone
        cases hd : delFail q with
        | none => exact List.mem_cons_of_mem q ((ih _ p hp').1 hnone)
        | some err => exact (ih fs p hp').1 hnone
      · intro err herr
        cases hd : delFail q with
        | none => exact (ih _ p hp').2 err herr
        | some err' => exact List.mem_cons_of_mem _ ((ih fs p hp').2 err herr)

/-- C6: when the normalized mode is neither view nor update, main prints the
invalid-mode message and stops: no scan happens, nothing is deleted, and the
directory contents are untouched. -/
theorem invalid_mode_no_action (fs : FS) (d mode resp : String)
    (delFail : String → Option String)
    (hv : pyLower (pyStrip mode) ≠ "view") (hu : pyLower (pyStrip mode) ≠ "update") :
    runMain fs d mode resp delFail =
      { fs := fs, scanned := false, deleted := [], output := ["Invalid mode. Exiting."] } := by
  unfold runMain
  rw [if_neg (fun h => h.elim hv hu)]

theorem runMain_update_yes (fs : FS) (d mode resp : String) (delFail : String → Option String)
    (hm : pyLower (pyStrip mode) = "update")
    (hlen : 0 < (scan_directory d fs).1.length)
    (hy : startsWithY (pyLower (pyStrip resp)) = true) :
    runMain fs d mode resp delFail =
      { fs := (runDelete d delFail fs (scan_directory d fs).1).1,
        scanned := true,
        deleted := (runDelete d delFail fs (scan_directory d fs).1).2.1,
        output := ["Outdated files: " ++ natRepr (scan_directory d fs).1.length,
            "Disk space used: " ++ format_size ((scan_directory d fs).2 : ℚ)] ++
          (runDelete d delFail fs (scan_directory d fs).1).2.2 ++
          ["Deleted " ++ natRepr (scan_directory d fs).1.length ++ " files."] } := by
  unfold runMain
  rw [hm]
  rw [if_pos (Or.inr rfl)]
  rw [if_pos ⟨rfl, hlen⟩]
  rw [if_pos hy]

theorem runMain_update_no (fs : FS) (d mode resp : String) (delFail : String → Option String)
    (hm : pyLower (pyStrip mode) = "update")
    (hlen : 0 < (scan_directory d fs).1.length)
    (hn : ¬ startsWithY (pyLower (pyStrip resp)) = true) :
    runMain fs d mode resp delFail =
      { fs := fs, scanned := true, deleted := [],
        output := ["Outdated files: " ++ natRepr (scan_directory d fs).1.length,
            "Disk space used: " ++ format_size ((scan_directory d fs).2 : ℚ)] ++
          ["Deletion cancelled."] } := by
  unfold runMain
  rw [hm]
  rw [if_pos (Or.inr rfl)]
  rw [if_pos ⟨rfl, hlen⟩]
  rw [if_neg hn]

theorem append_assoc3 (a b c : String) : a ++ b ++ c = a ++ (b ++ c) := by
  apply String.ext
  simp [String.data_append]

theorem rhe_intCast (z : ℤ) : rhe ((z : ℚ)) = z := by
  unfold rhe
  rw [Int.floor_intCast, sub_self]
  rw [if_neg (by norm_num)]
  apply Int.floor_eq_iff.mpr
  constructor
  · linarith
  · linarith

theorem format2_eval (q : ℚ) (m : ℕ) (h : q * 100 = (m : ℚ)) :
    format2 q =
      natRepr (m / 100) ++ "." ++ (if m % 100 < 10 then "0" else "") ++ natRepr (m % 100) := by
  unfold format2
  have hm : rhe (q * 100) = (m : ℤ) := by
    rw [h, ← Int.cast_natCast]
    exact rhe_intCast (m : ℤ)
  rw [hm]
  have h1 : ((m : ℤ) / 100).toNat = m / 100 := by omega
  have h2 : ((m : ℤ) % 100).toNat = m % 100 := by omega
  have h3 : (((m : ℤ) % 100) < 10) ↔ m % 100 < 10 := by omega
  rw [h1, h2]
  by_cases hlt : m % 100 < 10
  · rw [if_pos (h3.mpr hlt), if_pos hlt]
  · rw [if_neg (fun hh => hlt (h3.mp hh)), if_neg hlt]

theorem format_size_zero : format_size 0 = "0.00 bytes" := by
  unfold format_size
  simp only [format_size_go]
  rw [if_pos (by norm_num : (0 : ℚ) < 1024)]
  rw [format2_eval 0 0 (by norm_num)]
  decide

theorem format_size_1536 : format_size 1536 = "1.50 KB" := by
  unfold format_size
  simp only [format_size_go]
  rw [if_neg (by norm_num : ¬ (1536 : ℚ) < 1024)]
  rw [if_pos (by norm_num : (1536 : ℚ) / 1024 < 1024)]
  rw [format2_eval (1536 / 1024) 150 (by norm_num)]
  decide

theorem format_size_gb : format_size (1024 ^ 3) = "1.00 GB" := by
  unfold format_size
  simp only [format_size_go]
  rw [if_neg (by norm_num : ¬ (1024 : ℚ) ^ 3 < 1024)]
  rw [if_neg (by norm_num : ¬ (1024 : ℚ) ^ 3 / 1024 < 1024)]
  rw [if_neg (by norm_num : ¬ (1024 : ℚ) ^ 3 / 1024 / 1024 < 1024)]
  rw [if_pos (by norm_num : (1024 : ℚ) ^ 3 / 1024 / 1024 / 1024 < 1024)]
  rw [format2_eval (1024 ^ 3 / 1024 / 1024 / 1024) 100 (by norm_num)]
  decide

theorem format_size_eq_specFormat (n : ℕ) : format_size (n : ℚ) = specFormat n := by
  have e1 : ((n : ℚ) < 1024) ↔ n < 1024 := by exact_mod_cast Iff.rfl
  have e2 : ((n : ℚ) / 1024 < 1024) ↔ n < 1024 ^ 2 := by
    rw [div_lt_iff₀ (by norm_num : (0 : ℚ) < 1024)]
    rw [show (1024 : ℚ) * 1024 = ((1024 ^ 2 : ℕ) : ℚ) by norm_num]
    exact Nat.cast_lt
  have e3 : ((n : ℚ) / 1024 ^ 2 < 1024) ↔ n < 1024 ^ 3 := by
    rw [div_lt_iff₀ (by norm_num : (0 : ℚ) < 1024 ^ 2)]
    rw [show (1024 : ℚ) * 1024 ^ 2 = ((1024 ^ 3 : ℕ) : ℚ) by norm_num]
    exact Nat.cast_lt
  have e4 : ((n : ℚ) / 1024 ^ 3 < 1024) ↔ n < 1024 ^ 4 := by
    rw [div_lt_iff₀ (by norm_num : (0 : ℚ) < 1024 ^ 3)]
    rw [show (1024 : ℚ) * 1024 ^ 3 = ((1024 ^ 4 : ℕ) : ℚ) by norm_num]
    exact Nat.cast_lt
  have e5 : ((n : ℚ) / 1024 ^ 4 < 1024) ↔ n < 1024 ^ 5 := by
    rw [div_lt_iff₀ (by norm_num : (0 : ℚ) < 1024 ^ 4)]
    rw [show (1024 : ℚ) * 1024 ^ 4 = ((1024 ^ 5 : ℕ) : ℚ) by norm_num]
    exact Nat.cast_lt
  unfold format_size
  simp only [format_size_go]
  rw [show ((n : ℚ) / 1024 / 1024) = (n : ℚ) / 1024 ^ 2 by rw [div_div]; norm_num]
  rw [show ((n : ℚ) / 1024 ^ 2 / 1024) = (n : ℚ) / 1024 ^ 3 by rw [div_div]; norm_num]
  rw [show ((n : ℚ) / 1024 ^ 3 / 1024) = (n : ℚ) / 1024 ^ 4 by rw [div_div]; norm_num]
  rw [show ((n : ℚ) / 1024 ^ 4 / 1024) = (n : ℚ) / 1024 ^ 5 by rw [div_div]; norm_num]
  unfold specFormat
  by_cases h1 : n < 1024
  · rw [if_pos (e1.mpr h1), if_pos h1, append_assoc3]
    congr 1
  · rw [if_neg (fun hh => h1 (e1.mp hh)), if_neg h1]
    by_cases h2 : n < 1024 ^ 2
    · rw [if_pos (e2.mpr h2), if_pos h2, append_assoc3]
      congr 1
    · rw [if_neg (fun hh => h2 (e2.mp hh)), if_neg h2]
      by_cases h3 : n < 1024 ^ 3
      · rw [if_pos (e3.mpr h3), if_pos h3, append_assoc3]
        congr 1
      · rw [if_neg (fun hh => h3 (e3.mp hh)), if_neg h3]
        by_cases h4 : n < 1024 ^ 4
        · rw [if_pos (e4.mpr h4), if_pos h4, append_assoc3]
          congr 1
        · rw [if_neg (fun hh => h4 (e4.mp hh)), if_neg h4]
          by_cases h5 : n < 1024 ^ 5
          · rw [if_pos (e5.mpr h5), if_pos h5, append_assoc3]
            congr 1
          · rw [if_neg (fun hh => h5 (e5.mp hh)), if_neg h5]

/-- C1: scan_directory classifies a matching file as outdated exactly when its
version is strictly below the maximum version seen for its base; hence a base
with a single matching file is never outdated, and two files sharing the
maximal (base, version) pair are both kept. -/
theorem outdated_iff_below_max :
    (∀ (d : String) (fs : FS) (e : Entry) (b : String) (v : Nat),
        e ∈ fs → entryParse e.name = some (b, v) →
          (osJoin d e.name ∈ (scan_directory d fs).1 ↔ v < maxVersion fs b)) ∧
      (∀ (d : String) (fs : FS) (e : Entry) (b : String) (v : Nat),
        e ∈ fs → entryParse e.name = some (b, v) → versionsOf fs b = [v] →
          osJoin d e.name ∉ (scan_directory d fs).1) ∧
      (∀ (d : String) (fs : FS) (e₁ e₂ : Entry) (b : String) (v : Nat),
        e₁ ∈ fs → e₂ ∈ fs → entryParse e₁.name = some (b, v) →
          entryParse e₂.name = some (b, v) → v = maxVersion fs b →
          osJoin d e₁.name ∉ (scan_directory d fs).1 ∧
            osJoin d e₂.name ∉ (scan_directory d fs).1) := by
  refine ⟨fun d fs e b v he hp => scan_mem_iff_lt d fs e b v he hp, ?_, ?_⟩
  · intro d fs e b v he hp hone hmem
    have hlt := (scan_mem_iff_lt d fs e b v he hp).mp hmem
    have hmv : maxVersion fs b = v := by
      unfold maxVersion
      rw [hone]
      simp
    omega
  · intro d fs e₁ e₂ b v h1 h2 hp1 hp2 hveq
    constructor
    · intro hmem
      have hlt := (scan_mem_iff_lt d fs e₁ b v h1 hp1).mp hmem
      omega
    · intro hmem
      have hlt := (scan_mem_iff_lt d fs e₂ b v h2 hp2).mp hmem
      omega

/-- Witness for C1 at a concrete directory: `a.1.var` is outdated in `fsA`. -/
theorem outdated_iff_below_max_witness :
    osJoin "d" "a.1.var" ∈ (scan_directory "d" fsA).1 :=
  (outdated_iff_below_max.1 "d" fsA ⟨"a.1.var", some 10⟩ "a" 1 (by decide) (by decide)).mpr
    (by decide)

/-- C2 (code bug evidence): with two outdated files of which one fails to
delete, the final line still reports two deletions although only one file was
removed. -/
theorem deleted_count_overreported :
    delFailA "d/a.1.var" = some "Permission denied" ∧
      (runMain fsC "d" "update" "y" delFailA).deleted = ["d/b.1.var"] ∧
      (runMain fsC "d" "update" "y" delFailA).output.getLast? =
        some "Deleted 2 files." := by
  refine ⟨by decide, by decide, by decide⟩

/-- C3 counterexample: the regular expression does not parse `pack.1.2.var`
as base `pack` with version 1; the anchored suffix makes the base `pack.1`
and the version 2. -/
theorem pack_parse_counterexample :
    matchVar "pack.1.2.var" ≠ some ("pack", 1) ∧
      matchVar "pack.1.2.var" = some ("pack.1", 2) := by
  refine ⟨by decide, by decide⟩

/-- C3 (amended): `pack.1.2.var` is matched with base `pack.1` and version 2,
both by the raw expression and after the `.var` pre-filter. -/
theorem pack_parse_amended :
    matchVar "pack.1.2.var" = some ("pack.1", 2) ∧
      entryParse "pack.1.2.var" = some ("pack.1", 2) := by
  refine ⟨by decide, by decide⟩

/-- C4: the returned total is the sum of the sizes of exactly the files in
the outdated list (an unreadable size counting as 0), and outdatedness alone
decides membership in that list, regardless of the size being readable. -/
theorem total_bytes_sums_outdated (d : String) (fs : FS) :
    (scan_directory d fs).2 =
        ((fs.filter fun e => decide (osJoin d e.name ∈ (scan_directory d fs).1)).map
          (fun e => e.size.getD 0)).sum ∧
      ∀ e ∈ fs, ∀ b v, entryParse e.name = some (b, v) → v < maxVersion fs b →
        osJoin d e.name ∈ (scan_directory d fs).1 := by
  constructor
  · rw [scan_snd, filter_mem_eq]
  · intro e he b v hp hlt
    exact (scan_mem_iff_lt d fs e b v he hp).mpr hlt

/-- Witness for C4 on a directory whose outdated file has an unreadable
size: the total is still the sum over the outdated list, and the file with
unreadable size is listed. -/
theorem total_bytes_sums_outdated_witness :
    ((scan_directory "d" fsB).2 =
        ((fsB.filter fun e => decide (osJoin "d" e.name ∈ (scan_directory "d" fsB).1)).map
          (fun e => e.size.getD 0)).sum) ∧
      osJoin "d" "a.1.var" ∈ (scan_directory "d" fsB).1 :=
  ⟨(total_bytes_sums_outdated "d" fsB).1,
    (total_bytes_sums_outdated "d" fsB).2 ⟨"a.1.var", none⟩ (by decide) "a" 1 (by decide)
      (by decide)⟩

/-- C5: format_size walks the units in 1024 steps, printing two decimals at
the first unit below 1024, and the three quoted values evaluate as stated. -/
theorem format_size_correct :
    format_size 0 = "0.00 bytes" ∧ format_size 1536 = "1.50 KB" ∧
      format_size (1024 ^ 3) = "1.00 GB" ∧
      ∀ n : Nat, format_size (n : ℚ) = specFormat n :=
  ⟨format_size_zero, format_size_1536, format_size_gb, format_size_eq_specFormat⟩

/-- Witness for C6: mode input `blah` leaves the directory untouched, with
only the invalid-mode message printed. -/
theorem invalid_mode_no_action_witness :
    runMain fs7 "d" "blah" "n" (fun _ => none) =
      { fs := fs7, scanned := false, deleted := [], output := ["Invalid mode. Exiting."] } :=
  invalid_mode_no_action fs7 "d" "blah" "n" (fun _ => none) (by decide) (by decide)

/-- C7 counterexample: in update mode with a non-empty outdated list, the
response " y" does not begin with y or Y, yet the outdated file is deleted,
because the code strips whitespace before testing the leading character. -/
theorem decline_counterexample :
    pyLower (pyStrip "update") = "update" ∧
      (scan_directory "d" fs7).1 = ["d/a.1.var"] ∧
      beginsWithYorY " y" = false ∧
      (runMain fs7 "d" "update" " y" (fun _ => none)).deleted = ["d/a.1.var"] := by
  refine ⟨by decide, by decide, by decide, by decide⟩

/-- C7 (amended): in update mode with a non-empty outdated list, if the
response does not begin with y (case-insensitively, after stripping
surrounding whitespace) then nothing is deleted, the directory contents are
unchanged, and a subsequent scan returns the same outdated list and total. -/
theorem decline_no_delete (fs : FS) (d mode resp : String)
    (delFail : String → Option String)
    (hm : pyLower (pyStrip mode) = "update")
    (hne : (scan_directory d fs).1 ≠ [])
    (hn : ¬ startsWithY (pyLower (pyStrip resp)) = true) :
    (runMain fs d mode resp delFail).fs = fs ∧
      (runMain fs d mode resp delFail).deleted = [] ∧
      scan_directory d (runMain fs d mode resp delFail).fs = scan_directory d fs := by
  have hlen : 0 < (scan_directory d fs).1.length := List.length_pos.mpr hne
  rw [runMain_update_no fs d mode resp delFail hm hlen hn]
  exact ⟨rfl, rfl, rfl⟩

/-- Witness for C7 (amended) at a declined confirmation. -/
theorem decline_no_delete_witness :
    (runMain fs7 "d" "UPDATE " " no" (fun _ => none)).fs = fs7 ∧
      (runMain fs7 "d" "UPDATE " " no" (fun _ => none)).deleted = [] ∧
      scan_directory "d" (runMain fs7 "d" "UPDATE " " no" (fun _ => none)).fs =
        scan_directory "d" fs7 :=
  decline_no_delete fs7 "d" "UPDATE " " no" (fun _ => none) (by decide) (by decide) (by decide)

/-- C8: during a confirmed deletion every outdated path is attempted: a path
whose removal succeeds ends up among the deleted ones, and a path whose
removal fails is reported with the offending path and reason, independently
of the other files. -/
theorem delete_failure_reported (fs : FS) (d mode resp : String)
    (delFail : String → Option String)
    (hm : pyLower (pyStrip mode) = "update")
    (hy : startsWithY (pyLower (pyStrip resp)) = true)
    (p : String) (hp : p ∈ (scan_directory d fs).1) :
    (delFail p = none → p ∈ (runMain fs d mode resp delFail).deleted) ∧
      (∀ err, delFail p = some err →
        failMsg p err ∈ (runMain fs d mode resp delFail).output) := by
  have hlen : 0 < (scan_directory d fs).1.length :=
    List.length_pos.mpr (List.ne_nil_of_mem hp)
  rw [runMain_update_yes fs d mode resp delFail hm hlen hy]
  constructor
  · intro hnone
    exact (runDelete_mem d delFail _ fs p hp).1 hnone
  · intro err herr
    have hf := (runDelete_mem d delFail _ fs p hp).2 err herr
    exact List.mem_append.mpr (Or.inl (List.mem_append.mpr (Or.inr hf)))

/-- Witness for C8: with one failing and one succeeding deletion, the
successful path is deleted and the failing one is reported. -/
theorem delete_failure_reported_witness :
    ("d/b.1.var" ∈ (runMain fsC "d" "update" "y" delFailA).deleted) ∧
      failMsg "d/a.1.var" "Permission denied" ∈
        (runMain fsC "d" "update" "y" delFailA).output :=
  ⟨(delete_failure_reported fsC "d" "update" "y" delFailA (by decide) (by decide)
      "d/b.1.var" (by decide)).1 (by decide),
    (delete_failure_reported fsC "d" "update" "y" delFailA (by decide) (by decide)
      "d/a.1.var" (by decide)).2 "Permission denied" (by decide)⟩

/-- C9: names not matching the versioned grammar are ignored entirely: the
three quoted names do not parse, and removing every non-matching entry from
a directory changes neither the outdated list nor the total. -/
theorem nonmatching_ignored :
    entryParse "readme.txt" = none ∧ entryParse "a.var" = none ∧
      entryParse "a.x.var" = none ∧
      ∀ (d : String) (fs : FS),
        scan_directory d (fs.filter fun e => (entryParse e.name).isSome) =
          scan_directory d fs :=
  ⟨by decide, by decide, by decide, scan_filter⟩

/-- C10: every base present in a directory keeps at least one file out of the
outdated list (one carrying its maximum version), and after the deletion loop
has processed the whole outdated list at least one file of that base is still
present in the directory. -/
theorem latest_version_survives :
    (∀ (d : String) (fs : FS) (b : String),
        (∃ e ∈ fs, ∃ v, entryParse e.name = some (b, v)) →
          ∃ e ∈ fs, (∃ v, entryParse e.name = some (b, v)) ∧
            osJoin d e.name ∉ (scan_directory d fs).1) ∧
      (∀ (d : String) (fs : FS) (b : String) (delFail : String → Option String),
        (∃ e ∈ fs, ∃ v, entryParse e.name = some (b, v)) →
          ∃ e ∈ (runDelete d delFail fs (scan_directory d fs).1).1, ∃ v,
            entryParse e.name = some (b, v)) := by
  have key : ∀ (d : String) (fs : FS) (b : String),
      (∃ e ∈ fs, ∃ v, entryParse e.name = some (b, v)) →
        ∃ e ∈ fs, entryParse e.name = some (b, maxVersion fs b) ∧
          osJoin d e.name ∉ (scan_directory d fs).1 := by
    intro d fs b h
    obtain ⟨e, he, v, hp⟩ := h
    have hv := mem_versionsOf fs e b v he hp
    have hne := List.ne_nil_of_mem hv
    obtain ⟨e', he', hp'⟩ := versionsOf_exists fs b _ (maxVersion_mem fs b hne)
    refine ⟨e', he', hp', ?_⟩
    intro hmem
    exact lt_irrefl _ ((scan_mem_iff_lt d fs e' b _ he' hp').mp hmem)
  constructor
  · intro d fs b h
    obtain ⟨e', he', hp', hnm⟩ := key d fs b h
    exact ⟨e', he', ⟨_, hp'⟩, hnm⟩
  · intro d fs b delFail h
    obtain ⟨e', he', hp', hnm⟩ := key d fs b h
    refine ⟨e', ?_, _, hp'⟩
    apply runDelete_preserve d delFail _ fs e' he'
    intro p hpmem heq
    apply hnm
    rw [heq]
    exact hpmem

/-- Witness for C10 on a two-version base: some file of base `a` is kept by
the scan, and some file of base `a` survives the deletion loop. -/
theorem latest_version_survives_witness :
    (∃ e ∈ fsA, (∃ v, entryParse e.name = some ("a", v)) ∧
        osJoin "d" e.name ∉ (scan_directory "d" fsA).1) ∧
      ∃ e ∈ (runDelete "d" (fun _ => none) fsA (scan_directory "d" fsA).1).1, ∃ v,
        entryParse e.name = some ("a", v) :=
  ⟨latest_version_survives.1 "d" fsA "a" ⟨⟨"a.1.var", some 10⟩, by decide, 1, by decide⟩,
    latest_version_survives.2 "d" fsA "a" (fun _ => none)
      ⟨⟨"a.1.var", some 10⟩, by decide, 1, by decide⟩⟩
